import Mathlib

/-!
Shallow embedding of the data-cleaning engine in src/data_cleaner.py
(functions assess_data_quality and clean_data), with proofs of the
specified properties.

Modelling conventions:
* A pandas DataFrame is a Table: column names, per-column dtypes, and
  row-major cell lists.
* The missing markers (NaN / None / NaT) are the single cell Cell.null.
* Python floats are modelled as rationals; percentile interpolation and
  means are exact rational arithmetic.
* pd.to_datetime is an external library routine; the engine is
  parameterised by a per-value parser (parse : Cell -> Option (Option Int))
  with the three outcomes of pd.to_datetime on a non-null value: none
  models raising (ValueError/TypeError), some none models success as
  NaT (nat-strings such as the empty string), and some (some ts)
  models success as the timestamp ts. A whole-column conversion
  succeeds exactly when no value raises, mirroring the try/except
  around the whole-column call in the source (line 52).
* Change-log entries are structured values carrying exactly the data the
  source interpolates into its log strings.
* In-place mutation (fillna(..., inplace=True) on lines 37-43 and the
  column assignment on line 52 act on whatever object df currently
  names) is modelled by a companion function clean_data_callerView that
  computes the state of the caller-supplied table object after the call.
-/

namespace DataCleaner

/-- Column dtypes as pandas infers them for this app: int64, float64,
object (strings), datetime64, bool. -/
inductive Dtype
  | int64
  | float64
  | obj
  | datetime
  | boolean
deriving DecidableEq

/-- One cell of a table. Cell.null is the missing marker (NaN/None/NaT). -/
inductive Cell
  | int (n : Int)
  | num (q : ℚ)
  | str (s : String)
  | dt (ts : Int)
  | boolean (b : Bool)
  | null
deriving DecidableEq

/-- Numeric view of a cell, as used by mean/median/quantile: missing and
non-numeric cells are skipped. -/
def Cell.toQ : Cell → Option ℚ
  | .int n => some (n : ℚ)
  | .num q => some q
  | _ => none

/-- The fill-method selector of the sidebar (string compared on lines
36, 38, 40 of the source). -/
inductive FillMethod
  | Mean
  | Median
  | Mode
deriving DecidableEq

/-- The operations dict built on lines 107-112: four independent boolean
toggles, read with operations.get(key, False). -/
structure Ops where
  remove_duplicates : Bool
  fill_missing : Bool
  convert_dates : Bool
  remove_outliers : Bool

/-- Structured change-log entries; each constructor carries exactly the
data the source interpolates into the corresponding f-string:
removedDuplicates (line 30), filledMissing (line 46), convertedDates
(line 53), removedOutliers (line 69), shapeChanged (line 74),
missingReduced (line 76). -/
inductive ChangeEntry
  | removedDuplicates (n : ℕ)
  | filledMissing (n : ℕ) (col : String) (method : FillMethod)
  | convertedDates (col : String)
  | removedOutliers (n : ℕ) (mult : ℚ)
  | shapeChanged (origRows origCols newRows newCols : ℕ)
  | missingReduced (before after : ℕ)
deriving DecidableEq

/-- A pandas DataFrame: ordered named columns with dtypes, rows stored
row-major. Well-formed tables (Table.WF) have row-aligned columns. -/
structure Table where
  names : List String
  dtypes : List Dtype
  rows : List (List Cell)
deriving DecidableEq

/-- Row alignment: every row has one cell per column and there is one
dtype per column. -/
def Table.WF (t : Table) : Prop :=
  t.dtypes.length = t.names.length ∧ ∀ r ∈ t.rows, r.length = t.names.length

instance (t : Table) : Decidable t.WF := by
  unfold Table.WF; infer_instance

def Table.ncols (t : Table) : ℕ := t.names.length

/-- The dtype of column i (df[col].dtype). -/
def Table.colDtype (t : Table) (i : ℕ) : Dtype := t.dtypes.getD i Dtype.obj

/-- The values of column i (the series df[col]). -/
def Table.colVals (t : Table) (i : ℕ) : List Cell :=
  t.rows.map (fun r => r.getD i Cell.null)

/-- select_dtypes(include=[number]) keeps int64 and float64 columns. -/
def Dtype.isNumeric : Dtype → Bool
  | .int64 => true
  | .float64 => true
  | _ => false

/-- Indices of the numeric columns, in column order. -/
def Table.numericIdxs (t : Table) : List ℕ :=
  (List.range t.ncols).filter (fun i => (t.colDtype i).isNumeric)

/-- df[col].isnull().sum() for column i. -/
def countNullAt (i : ℕ) (rows : List (List Cell)) : ℕ :=
  rows.countP (fun r => decide (r.getD i Cell.null = Cell.null))

/-- df.isnull().sum().sum(): total missing cells, summed per column. -/
def totalMissing (t : Table) : ℕ :=
  ((List.range t.ncols).map (fun i => countNullAt i t.rows)).sum

/-- df.duplicated().sum() with keep=first: walk the rows keeping the set
of rows already seen, counting a row iff an identical row was seen. -/
def dupCountAux (seen : List (List Cell)) : List (List Cell) → ℕ
  | [] => 0
  | r :: rs => (if r ∈ seen then 1 else 0) + dupCountAux (r :: seen) rs

def Table.dupCount (t : Table) : ℕ := dupCountAux [] t.rows

/-- df.drop_duplicates() with keep=first: keep a row iff no identical
row was seen earlier; order of first occurrences is preserved. -/
def dropDupAux (seen : List (List Cell)) : List (List Cell) → List (List Cell)
  | [] => []
  | r :: rs => if r ∈ seen then dropDupAux seen rs else r :: dropDupAux (r :: seen) rs

def Table.dropDuplicates (t : Table) : Table :=
  { t with rows := dropDupAux [] t.rows }

/-- series.quantile(p) with the default linear interpolation over the
sorted non-null values s of length n: with h = p*(n-1), the result is
s[floor h] + (h - floor h) * (s[floor h + 1] - s[floor h]); NaN (none)
when there are no values. -/
def quantileQ (p : ℚ) (qs : List ℚ) : Option ℚ :=
  if qs = [] then none
  else
    let s := List.insertionSort (fun a b : ℚ => a ≤ b) qs
    let n := qs.length
    let h := p * ((n : ℚ) - 1)
    let lo := (Int.floor h).toNat
    let frac := h - (lo : ℚ)
    let a := s.getD lo 0
    let b := s.getD (lo + 1) a
    some (a + frac * (b - a))

/-- The non-null numeric values of a column, in row order. -/
def nonNullQs (vals : List Cell) : List ℚ := vals.filterMap Cell.toQ

/-- series.mean(): NaN (none) when there are no non-null values. -/
def meanQ (vals : List Cell) : Option ℚ :=
  let qs := nonNullQs vals
  if qs.length = 0 then none else some (qs.sum / (qs.length : ℚ))

/-- Number of occurrences of a cell in a list. -/
def countCell (vals : List Cell) (c : Cell) : ℕ :=
  vals.countP (fun x => decide (x = c))

/-- Order used to pick series.mode()[0], the smallest most-frequent
value: pandas mode sorts ascending. Cells of distinct kinds are ranked
by constructor. -/
def Cell.rank : Cell → ℕ
  | .null => 0
  | .boolean _ => 1
  | .int _ => 2
  | .num _ => 3
  | .dt _ => 4
  | .str _ => 5

/-- Lexicographic order on char lists by code point. -/
def charListLe : List Char → List Char → Bool
  | [], _ => true
  | _ :: _, [] => false
  | a :: as, b :: bs =>
    if a.toNat < b.toNat then true
    else if b.toNat < a.toNat then false
    else charListLe as bs

/-- Lexicographic order on strings by code point. -/
def strLe (a b : String) : Bool := charListLe a.data b.data

def cellLe (a b : Cell) : Bool :=
  match a, b with
  | .int m, .int n => decide (m ≤ n)
  | .int m, .num q => decide ((m : ℚ) ≤ q)
  | .num q, .int n => decide (q ≤ (n : ℚ))
  | .num p, .num q => decide (p ≤ q)
  | .str s, .str u => strLe s u
  | .dt s, .dt u => decide (s ≤ u)
  | .boolean x, .boolean y => !x || y
  | a, b => decide (a.rank ≤ b.rank)

/-- One fold step selecting the mode: prefer strictly larger count, and
on ties the smaller value. -/
def modeStep (nn : List Cell) (acc x : Cell) : Cell :=
  if countCell nn x > countCell nn acc then x
  else if countCell nn x = countCell nn acc && cellLe x acc then x else acc

/-- series.mode()[0] when the mode series is nonempty: the smallest
most-frequent non-null value; none when every value is null (mode
empty). -/
def modeCell (vals : List Cell) : Option Cell :=
  let nn := vals.filter (fun c => decide (c ≠ Cell.null))
  match nn with
  | [] => none
  | c :: _ => some (nn.foldl (modeStep nn) c)

/-- The value fillna would fill column values with (lines 35-43): for a
numeric column the mean / median / mode per fill method (mode falling
back to 0), otherwise the mode falling back to the string Unknown. A
none result models filling with NaN (mean/median of an all-null
column), which leaves the nulls in place. -/
def fillValue (fm : FillMethod) (d : Dtype) (vals : List Cell) : Option Cell :=
  if d.isNumeric then
    match fm with
    | .Mean => (meanQ vals).map Cell.num
    | .Median => (quantileQ (1/2) (nonNullQs vals)).map Cell.num
    | .Mode => some ((modeCell vals).getD (Cell.num 0))
  else
    some ((modeCell vals).getD (Cell.str "Unknown"))

/-- df[col].fillna(v, inplace=True): replace the null cells of column i
by v. -/
def fillColRows (i : ℕ) (v : Cell) (rows : List (List Cell)) : List (List Cell) :=
  rows.map (fun r => if r.getD i Cell.null = Cell.null then r.set i v else r)

/-- One iteration of the fill loop body (lines 33-46) at column i. -/
def fillF (fm : FillMethod) (acc : Table × List ChangeEntry) (i : ℕ) :
    Table × List ChangeEntry :=
  let tcur := acc.1
  let before := countNullAt i tcur.rows
  let rows' :=
    match fillValue fm (tcur.colDtype i) (tcur.colVals i) with
    | some v => fillColRows i v tcur.rows
    | none => tcur.rows
  let after := countNullAt i rows'
  (({ tcur with rows := rows' } : Table),
    if after < before then
      acc.2 ++ [ChangeEntry.filledMissing (before - after) (tcur.names.getD i "") fm]
    else acc.2)

/-- The fill-missing step (lines 32-46): process all columns in order. -/
def fillStep (fm : FillMethod) (t : Table) : Table × List ChangeEntry :=
  (List.range t.ncols).foldl (fillF fm) (t, [])

/-- Whether pd.to_datetime succeeds on one cell: nulls pass through as
NaT, and a non-null value succeeds (possibly as NaT) exactly when the
parser does not raise on it. -/
def cellParses (parse : Cell → Option (Option Int)) (c : Cell) : Bool :=
  decide (c = Cell.null) || (parse c).isSome

/-- The converted cell when the whole column parses: null stays NaT
(null); a value parsed to a timestamp becomes that datetime; a value
pd.to_datetime accepts as NaT (a nat-string such as the empty string)
becomes NaT, i.e. null. The raising branch cannot occur in a committed
column and defaults to NaT. -/
def convertCellD (parse : Cell → Option (Option Int)) (c : Cell) : Cell :=
  if c = Cell.null then Cell.null
  else
    match parse c with
    | some (some ts) => Cell.dt ts
    | _ => Cell.null

/-- One iteration of the convert-dates loop body (lines 49-55) at
column i: object columns only; commit the converted column and log iff
every value parses, otherwise the except branch leaves everything
unchanged. -/
def convF (parse : Cell → Option (Option Int)) (acc : Table × List ChangeEntry) (i : ℕ) :
    Table × List ChangeEntry :=
  let tcur := acc.1
  if tcur.colDtype i = Dtype.obj then
    if (tcur.colVals i).all (cellParses parse) then
      (({ tcur with
          rows := tcur.rows.map (fun r => r.set i (convertCellD parse (r.getD i Cell.null))),
          dtypes := tcur.dtypes.set i Dtype.datetime } : Table),
        acc.2 ++ [ChangeEntry.convertedDates (tcur.names.getD i "")])
    else acc
  else acc

/-- The convert-dates step (lines 48-55). -/
def convertStep (parse : Cell → Option (Option Int)) (t : Table) : Table × List ChangeEntry :=
  (List.range t.ncols).foldl (convF parse) (t, [])

/-- The row filter of line 66: (df[col] >= lower) & (df[col] <= upper);
comparisons against NaN are false, so rows with a missing value in the
column never pass. -/
def outlierKeep (i : ℕ) (lb ub : ℚ) (r : List Cell) : Bool :=
  match (r.getD i Cell.null).toQ with
  | some v => decide (lb ≤ v) && decide (v ≤ ub)
  | none => false

/-- Lines 60-66 for one numeric column: IQR bounds from the current
values, then the row filter. When the column has no non-null values the
bounds are NaN and the comparisons keep nothing. -/
def outlierFilterCol (m : ℚ) (i : ℕ) (rows : List (List Cell)) : List (List Cell) :=
  let qs := nonNullQs (rows.map (fun r => r.getD i Cell.null))
  match quantileQ (1/4) qs, quantileQ (3/4) qs with
  | some q1, some q3 =>
    let iqr := q3 - q1
    rows.filter (outlierKeep i (q1 - m * iqr) (q3 + m * iqr))
  | _, _ => rows.filter (fun _ => false)

/-- One iteration of the outlier loop body (lines 59-67): filter on the
current rows and add the length difference to the running total. -/
def outF (m : ℚ) (acc : List (List Cell) × ℕ) (i : ℕ) : List (List Cell) × ℕ :=
  let before := acc.1.length
  let rows' := outlierFilterCol m i acc.1
  (rows', acc.2 + (before - rows'.length))

/-- Lines 57-67: fold the per-column filter over the numeric columns of
the current table, accumulating the total of removed rows. -/
def removeOutliersStep (m : ℚ) (t : Table) : Table × ℕ :=
  let res := t.numericIdxs.foldl (outF m) (t.rows, 0)
  (({ t with rows := res.1 } : Table), res.2)

/-- Lines 57-69 including the final log: one entry with the total and
the multiplier, only when the total is positive. -/
def removeOutliersLog (m : ℚ) (t : Table) : Table × List ChangeEntry :=
  let res := removeOutliersStep m t
  (res.1, if 0 < res.2 then [ChangeEntry.removedOutliers res.2 m] else [])

/-- Stage 1 of clean_data (lines 27-30): drop duplicates and log the
original duplicate count when the row count shrank. -/
def stage1 (ops : Ops) (t : Table) : Table × List ChangeEntry :=
  if ops.remove_duplicates then
    let t' := t.dropDuplicates
    (t', if t'.rows.length < t.rows.length then
      [ChangeEntry.removedDuplicates t.dupCount] else [])
  else (t, [])

/-- Stage 2 of clean_data (lines 32-46). -/
def stage2 (ops : Ops) (fm : FillMethod) (t : Table) : Table × List ChangeEntry :=
  if ops.fill_missing then fillStep fm t else (t, [])

/-- Stage 3 of clean_data (lines 48-55). -/
def stage3 (ops : Ops) (parse : Cell → Option (Option Int)) (t : Table) : Table × List ChangeEntry :=
  if ops.convert_dates then convertStep parse t else (t, [])

/-- Stage 4 of clean_data (lines 57-69). -/
def stage4 (ops : Ops) (m : ℚ) (t : Table) : Table × List ChangeEntry :=
  if ops.remove_outliers then removeOutliersLog m t else (t, [])

/-- clean_data (lines 19-78): the four stages in fixed order, then the
shape-change and missing-reduction entries computed against the
original table. -/
def clean_data (parse : Cell → Option (Option Int)) (t : Table) (ops : Ops)
    (fm : FillMethod) (m : ℚ) : Table × List ChangeEntry :=
  let p1 := stage1 ops t
  let p2 := stage2 ops fm p1.1
  let p3 := stage3 ops parse p2.1
  let p4 := stage4 ops m p3.1
  let ch5 :=
    if (p4.1.rows.length, p4.1.ncols) ≠ (t.rows.length, t.ncols) then
      [ChangeEntry.shapeChanged t.rows.length t.ncols p4.1.rows.length p4.1.ncols]
    else []
  let ch6 :=
    if totalMissing p4.1 < totalMissing t then
      [ChangeEntry.missingReduced (totalMissing t) (totalMissing p4.1)]
    else []
  (p4.1, p1.2 ++ p2.2 ++ p3.2 ++ p4.2 ++ ch5 ++ ch6)

/-- The caller-supplied table object after clean_data returns, under
Python aliasing: df names the caller object until rebound.
drop_duplicates (line 28) rebinds df to a fresh frame, so with
remove_duplicates enabled the caller object is never touched
afterwards; otherwise the in-place fillna of stage 2 and the column
assignment of stage 3 write through the alias, while stage 4 only
rebinds df to filtered copies. -/
def clean_data_callerView (parse : Cell → Option (Option Int)) (t : Table) (ops : Ops)
    (fm : FillMethod) (m : ℚ) : Table :=
  if ops.remove_duplicates then t
  else
    let t2 := if ops.fill_missing then (fillStep fm t).1 else t
    if ops.convert_dates then (convertStep parse t2).1 else t2

/-- Per-numeric-column describe() output. Pandas reports the sample
standard deviation, the square root of varSample below; the square root
of a rational is irrational in general, so the variance (std squared)
is recorded instead. All other fields are exact. -/
structure NumStats where
  count : ℕ
  mean : Option ℚ
  varSample : Option ℚ
  min : Option ℚ
  q25 : Option ℚ
  q50 : Option ℚ
  q75 : Option ℚ
  max : Option ℚ
deriving DecidableEq

/-- The Numeric Stats value of the quality dict: either the sentinel
string (No numeric columns) or per-numeric-column describe stats. -/
inductive NumericStatsResult
  | noNumericColumns
  | stats (l : List (String × NumStats))
deriving DecidableEq

def describeCol (vals : List Cell) : NumStats :=
  let qs := nonNullQs vals
  let n := qs.length
  { count := n
    mean := if n = 0 then none else some (qs.sum / (n : ℚ))
    varSample :=
      if 2 ≤ n then
        some ((qs.map (fun x => (x - qs.sum / (n : ℚ)) ^ 2)).sum / ((n : ℚ) - 1))
      else none
    min := match List.insertionSort (fun a b : ℚ => a ≤ b) qs with
      | [] => none
      | x :: _ => some x
    q25 := quantileQ (1/4) qs
    q50 := quantileQ (1/2) qs
    q75 := quantileQ (3/4) qs
    max := match (List.insertionSort (fun a b : ℚ => a ≤ b) qs).reverse with
      | [] => none
      | x :: _ => some x }

/-- df.select_dtypes(include=[number]): the numeric sub-frame, keeping
all rows. -/
def Table.selectNumeric (t : Table) : Table :=
  { names := t.numericIdxs.map (fun i => t.names.getD i ""),
    dtypes := t.numericIdxs.map (fun i => t.colDtype i),
    rows := t.rows.map (fun r => t.numericIdxs.map (fun i => r.getD i Cell.null)) }

/-- DataFrame.empty: true when any axis has length zero. -/
def Table.isEmptyDF (t : Table) : Bool := t.names.isEmpty || t.rows.isEmpty

/-- The quality dict built by assess_data_quality (lines 8-17). -/
structure Quality where
  totalRows : ℕ
  totalCols : ℕ
  missingValues : List (String × ℕ)
  duplicateRows : ℕ
  dataTypes : List (String × Dtype)
  numericStats : NumericStatsResult
deriving DecidableEq

/-- assess_data_quality (lines 8-17). Line 16 reports the sentinel
exactly when df.select_dtypes(include=[number]).empty holds. -/
def assess_data_quality (t : Table) : Quality :=
  { totalRows := t.rows.length
    totalCols := t.ncols
    missingValues := (List.range t.ncols).map (fun i => (t.names.getD i "", countNullAt i t.rows))
    duplicateRows := t.dupCount
    dataTypes := (List.range t.ncols).map (fun i => (t.names.getD i "", t.colDtype i))
    numericStats :=
      if t.selectNumeric.isEmptyDF then NumericStatsResult.noNumericColumns
      else
        NumericStatsResult.stats
          (t.numericIdxs.map (fun i => (t.names.getD i "", describeCol (t.colVals i)))) }

/-! ## Helper lemmas -/

theorem dropDupAux_idem (l : List (List Cell)) :
    ∀ seen, dropDupAux seen (dropDupAux seen l) = dropDupAux seen l := by
  induction l with
  | nil => intro seen; rfl
  | cons r rs ih =>
    intro seen
    by_cases h : r ∈ seen
    · simp [dropDupAux, h, ih seen]
    · simp [dropDupAux, h, ih (r :: seen)]

theorem selectNumeric_isEmptyDF (t : Table) :
    t.selectNumeric.isEmptyDF = true ↔ (t.numericIdxs = [] ∨ t.rows = []) := by
  simp [Table.selectNumeric, Table.isEmptyDF, List.isEmpty_iff]

theorem dupCountAux_eq (l : List (List Cell)) :
    ∀ seen, dupCountAux seen l =
      (List.range l.length).countP (fun i => decide (l.getD i [] ∈ seen ++ l.take i)) := by
  induction l with
  | nil => intro seen; rfl
  | cons r rs ih =>
    intro seen
    have hmap : ((List.range rs.length).map Nat.succ).countP
        (fun i => decide ((r :: rs).getD i [] ∈ seen ++ (r :: rs).take i)) =
        (List.range rs.length).countP
        (fun i => decide (rs.getD i [] ∈ (r :: seen) ++ rs.take i)) := by
      rw [List.countP_map]
      refine List.countP_congr ?_
      intro i _
      simp only [Function.comp_apply, List.getD_cons_succ, List.take_succ_cons,
        decide_eq_true_eq, List.mem_append, List.mem_cons]
      tauto
    have hcons := List.countP_cons
      (fun i => decide ((r :: rs).getD i [] ∈ seen ++ (r :: rs).take i))
      0 ((List.range rs.length).map Nat.succ)
    have h0 : (decide ((r :: rs).getD 0 [] ∈ seen ++ (r :: rs).take 0) = true) ↔ r ∈ seen := by
      simp
    calc dupCountAux seen (r :: rs)
        = (if r ∈ seen then 1 else 0) + dupCountAux (r :: seen) rs := rfl
      _ = (if r ∈ seen then 1 else 0) +
          (List.range rs.length).countP
            (fun i => decide (rs.getD i [] ∈ (r :: seen) ++ rs.take i)) := by
            rw [ih (r :: seen)]
      _ = (List.range (rs.length + 1)).countP
            (fun i => decide ((r :: rs).getD i [] ∈ seen ++ (r :: rs).take i)) := by
            rw [List.range_succ_eq_map, List.countP_cons, hmap]
            by_cases h : r ∈ seen
            · simp [h0, h, Nat.add_comm]
            · simp [h0, h]
      _ = (List.range ((r :: rs).length)).countP
            (fun i => decide ((r :: rs).getD i [] ∈ seen ++ (r :: rs).take i)) := by
            simp

/-! ## C9: remove-duplicates is idempotent -/

/-- C9: applying duplicate removal (drop_duplicates, keeping first
occurrences in order) to the result of duplicate removal yields the
same table as applying it once. -/
theorem dropDuplicates_idempotent (t : Table) :
    t.dropDuplicates.dropDuplicates = t.dropDuplicates := by
  simp [Table.dropDuplicates, dropDupAux_idem]

/-! ## C6: the duplicate-row count of assess -/

/-- C6: the duplicate-row count reported by assess equals the number of
row indices whose row is value-for-value identical to some earlier row
(a member of the prefix of rows before it); each group of identical
rows hence contributes its size minus one, the first occurrence never
being counted. -/
theorem assess_duplicateRows_eq_earlier_matches (t : Table) :
    (assess_data_quality t).duplicateRows =
      (List.range t.rows.length).countP
        (fun i => decide (t.rows.getD i [] ∈ t.rows.take i)) := by
  have h := dupCountAux_eq t.rows []
  simpa [assess_data_quality, Table.dupCount] using h

/-! ## C3: the numeric-stats sentinel -/

/-- Concrete table for C3: one numeric (float64) column and zero rows. -/
def tableC3 : Table := ⟨["a"], [Dtype.float64], []⟩

/-- C3 counterexample: tableC3 has a numeric column, yet assess reports
the no-numeric-columns sentinel, because line 16 tests
df.select_dtypes(include=[number]).empty, which is also true when the
table has zero rows. The claim, which requires the stats mapping
whenever a numeric column exists even with zero rows, is false here. -/
theorem assess_sentinel_zero_rows_example :
    tableC3.numericIdxs ≠ [] ∧
      (assess_data_quality tableC3).numericStats = NumericStatsResult.noNumericColumns := by
  constructor
  · decide
  · rfl

/-- C3 amended: assess reports the no-numeric-columns sentinel exactly
when the numeric sub-frame is empty, i.e. when the table has no numeric
column or has zero rows; otherwise it reports the per-numeric-column
statistics mapping. -/
theorem assess_numericStats_sentinel_iff (t : Table) :
    (assess_data_quality t).numericStats = NumericStatsResult.noNumericColumns ↔
      (t.numericIdxs = [] ∨ t.rows = []) := by
  constructor
  · intro h
    by_cases hs : t.selectNumeric.isEmptyDF
    · exact (selectNumeric_isEmptyDF t).mp hs
    · simp [assess_data_quality, hs] at h
  · intro h
    have hs : t.selectNumeric.isEmptyDF = true := (selectNumeric_isEmptyDF t).mpr h
    simp [assess_data_quality, hs]

/-! ## C1: mutation of the caller-supplied table -/

/-- Concrete table for C1: one object column with one missing value. -/
def tableC1 : Table := ⟨["a"], [Dtype.obj], [[Cell.null], [Cell.str "x"]]⟩

/-- A parser that always fails (stands in for pd.to_datetime where the
conversion step is disabled or irrelevant). -/
def parseNone : Cell → Option (Option Int) := fun _ => none

/-- C1 counterexample: with fill-missing enabled and remove-duplicates
disabled, clean_data fills through the alias df (fillna with
inplace=True, lines 37-43), so after the call the caller-supplied table
no longer holds its original values: the claim that clean never mutates
the caller table is false. -/
theorem clean_data_mutates_caller_example :
    clean_data_callerView parseNone tableC1 ⟨false, true, false, false⟩
      FillMethod.Mean (3/2) ≠ tableC1 := by
  decide

/-- C1 amended: clean_data leaves the caller-supplied table unchanged
when remove-duplicates is enabled (drop_duplicates on line 28 rebinds
df to a fresh frame before any in-place step) or when both fill-missing
and convert-dates are disabled (the only in-place steps); otherwise the
fill and date-conversion steps write through the alias into the caller
table. -/
theorem clean_data_callerView_unchanged (parse : Cell → Option (Option Int)) (t : Table)
    (ops : Ops) (fm : FillMethod) (m : ℚ)
    (h : ops.remove_duplicates = true ∨
      (ops.fill_missing = false ∧ ops.convert_dates = false)) :
    clean_data_callerView parse t ops fm m = t := by
  rcases h with h | ⟨hf, hc⟩
  · simp [clean_data_callerView, h]
  · by_cases hd : ops.remove_duplicates <;>
      simp [clean_data_callerView, hd, hf, hc]

theorem clean_data_callerView_unchanged_witness :
    clean_data_callerView parseNone tableC1 ⟨true, true, false, false⟩
      FillMethod.Mean (3/2) = tableC1 :=
  clean_data_callerView_unchanged parseNone tableC1 ⟨true, true, false, false⟩
    FillMethod.Mean (3/2) (Or.inl rfl)

/-! ## Fold invariance helpers -/

theorem foldl_invariant {α : Type _} {β : Type _} (f : α → β → α) (P : α → Prop)
    (l : List β) (a : α) (ha : P a) (h : ∀ x b, P x → P (f x b)) :
    P (l.foldl f a) := by
  induction l generalizing a with
  | nil => exact ha
  | cons b bs ih => exact ih _ (h a b ha)

theorem fillF_fst_names (fm : FillMethod) (acc : Table × List ChangeEntry) (i : ℕ) :
    (fillF fm acc i).1.names = acc.1.names := by
  unfold fillF
  cases fillValue fm (acc.1.colDtype i) (acc.1.colVals i) <;> simp

theorem fillF_fst_dtypes (fm : FillMethod) (acc : Table × List ChangeEntry) (i : ℕ) :
    (fillF fm acc i).1.dtypes = acc.1.dtypes := by
  unfold fillF
  cases fillValue fm (acc.1.colDtype i) (acc.1.colVals i) <;> simp

theorem fillF_fst_rows_length (fm : FillMethod) (acc : Table × List ChangeEntry) (i : ℕ) :
    (fillF fm acc i).1.rows.length = acc.1.rows.length := by
  cases h : fillValue fm (acc.1.colDtype i) (acc.1.colVals i) <;>
    simp [fillF, h, fillColRows]

theorem fillStep_fst_names (fm : FillMethod) (t : Table) :
    (fillStep fm t).1.names = t.names :=
  foldl_invariant (fillF fm) (fun p => p.1.names = t.names) _ (t, []) rfl
    (fun x b hx => (fillF_fst_names fm x b).trans hx)

theorem fillStep_fst_dtypes (fm : FillMethod) (t : Table) :
    (fillStep fm t).1.dtypes = t.dtypes :=
  foldl_invariant (fillF fm) (fun p => p.1.dtypes = t.dtypes) _ (t, []) rfl
    (fun x b hx => (fillF_fst_dtypes fm x b).trans hx)

theorem fillStep_fst_rows_length (fm : FillMethod) (t : Table) :
    (fillStep fm t).1.rows.length = t.rows.length :=
  foldl_invariant (fillF fm) (fun p => p.1.rows.length = t.rows.length) _ (t, []) rfl
    (fun x b hx => (fillF_fst_rows_length fm x b).trans hx)

theorem convF_fst_names (parse : Cell → Option (Option Int)) (acc : Table × List ChangeEntry) (i : ℕ) :
    (convF parse acc i).1.names = acc.1.names := by
  unfold convF
  by_cases h : acc.1.colDtype i = Dtype.obj
  · by_cases h2 : (acc.1.colVals i).all (cellParses parse) <;> simp [h, h2]
  · simp [h]

theorem convF_fst_rows_length (parse : Cell → Option (Option Int))
    (acc : Table × List ChangeEntry) (i : ℕ) :
    (convF parse acc i).1.rows.length = acc.1.rows.length := by
  unfold convF
  by_cases h : acc.1.colDtype i = Dtype.obj
  · by_cases h2 : (acc.1.colVals i).all (cellParses parse) <;> simp [h, h2]
  · simp [h]

theorem convertStep_fst_names (parse : Cell → Option (Option Int)) (t : Table) :
    (convertStep parse t).1.names = t.names :=
  foldl_invariant (convF parse) (fun p => p.1.names = t.names) _ (t, []) rfl
    (fun x b hx => (convF_fst_names parse x b).trans hx)

theorem convertStep_fst_rows_length (parse : Cell → Option (Option Int)) (t : Table) :
    (convertStep parse t).1.rows.length = t.rows.length :=
  foldl_invariant (convF parse) (fun p => p.1.rows.length = t.rows.length) _ (t, []) rfl
    (fun x b hx => (convF_fst_rows_length parse x b).trans hx)

theorem outlierFilterCol_sublist (m : ℚ) (i : ℕ) (rows : List (List Cell)) :
    (outlierFilterCol m i rows).Sublist rows := by
  cases h1 : quantileQ (1/4) (nonNullQs (List.map (fun r => r.getD i Cell.null) rows)) <;>
    cases h2 : quantileQ (3/4) (nonNullQs (List.map (fun r => r.getD i Cell.null) rows)) <;>
    simp only [outlierFilterCol, h1, h2] <;>
    exact List.filter_sublist rows

theorem removeOutliersStep_sublist (m : ℚ) (t : Table) :
    ((removeOutliersStep m t).1.rows).Sublist t.rows := by
  have key : ∀ (js : List ℕ) (acc : List (List Cell) × ℕ), acc.1.Sublist t.rows →
      ((js.foldl (outF m) acc).1).Sublist t.rows := by
    intro js
    induction js with
    | nil => intro acc h; exact h
    | cons j js ih =>
      intro acc h
      exact ih (outF m acc j) ((outlierFilterCol_sublist m j acc.1).trans h)
  exact key t.numericIdxs (t.rows, 0) (List.Sublist.refl _)

theorem stage1_fst_names (ops : Ops) (t : Table) : (stage1 ops t).1.names = t.names := by
  unfold stage1
  by_cases h : ops.remove_duplicates <;> simp [h, Table.dropDuplicates]

theorem stage1_fst_dtypes (ops : Ops) (t : Table) : (stage1 ops t).1.dtypes = t.dtypes := by
  unfold stage1
  by_cases h : ops.remove_duplicates <;> simp [h, Table.dropDuplicates]

theorem stage1_disabled (ops : Ops) (t : Table) (h : ops.remove_duplicates = false) :
    stage1 ops t = (t, []) := by
  simp [stage1, h]

theorem length_dropDupAux (l : List (List Cell)) :
    ∀ seen, (dropDupAux seen l).length ≤ l.length := by
  induction l with
  | nil => intro seen; simp [dropDupAux]
  | cons r rs ih =>
    intro seen
    by_cases h : r ∈ seen
    · simp only [dropDupAux, if_pos h, List.length_cons]
      exact (ih seen).trans (Nat.le_succ _)
    · simp only [dropDupAux, if_neg h, List.length_cons]
      exact Nat.succ_le_succ (ih (r :: seen))

theorem stage1_fst_rows_length_le (ops : Ops) (t : Table) :
    (stage1 ops t).1.rows.length ≤ t.rows.length := by
  unfold stage1
  by_cases h : ops.remove_duplicates
  · simp only [h, if_true]
    exact length_dropDupAux t.rows []
  · simp [h]

theorem stage2_fst_names (ops : Ops) (fm : FillMethod) (t : Table) :
    (stage2 ops fm t).1.names = t.names := by
  unfold stage2
  by_cases h : ops.fill_missing <;> simp [h, fillStep_fst_names]

theorem stage2_fst_rows_length (ops : Ops) (fm : FillMethod) (t : Table) :
    (stage2 ops fm t).1.rows.length = t.rows.length := by
  unfold stage2
  by_cases h : ops.fill_missing <;> simp [h, fillStep_fst_rows_length]

theorem stage3_fst_names (ops : Ops) (parse : Cell → Option (Option Int)) (t : Table) :
    (stage3 ops parse t).1.names = t.names := by
  unfold stage3
  by_cases h : ops.convert_dates <;> simp [h, convertStep_fst_names]

theorem stage3_fst_rows_length (ops : Ops) (parse : Cell → Option (Option Int)) (t : Table) :
    (stage3 ops parse t).1.rows.length = t.rows.length := by
  unfold stage3
  by_cases h : ops.convert_dates <;> simp [h, convertStep_fst_rows_length]

theorem stage4_fst_names (ops : Ops) (m : ℚ) (t : Table) :
    (stage4 ops m t).1.names = t.names := by
  unfold stage4
  by_cases h : ops.remove_outliers <;> simp [h, removeOutliersLog, removeOutliersStep]

theorem stage4_fst_rows_length_le (ops : Ops) (m : ℚ) (t : Table) :
    (stage4 ops m t).1.rows.length ≤ t.rows.length := by
  unfold stage4
  by_cases h : ops.remove_outliers
  · simp only [h, if_true]
    exact ((removeOutliersStep_sublist m t).length_le)
  · simp [h]

theorem stage4_disabled (ops : Ops) (m : ℚ) (t : Table) (h : ops.remove_outliers = false) :
    stage4 ops m t = (t, []) := by
  simp [stage4, h]

theorem clean_data_fst (parse : Cell → Option (Option Int)) (t : Table) (ops : Ops)
    (fm : FillMethod) (m : ℚ) :
    (clean_data parse t ops fm m).1 =
      (stage4 ops m (stage3 ops parse (stage2 ops fm (stage1 ops t).1).1).1).1 := rfl

/-! ## C8: column preservation -/

/-- C8: clean_data returns a table with exactly the columns of the
input, same names in the same order (hence the same count); no stage
adds or removes a column. -/
theorem clean_data_preserves_columns (parse : Cell → Option (Option Int)) (t : Table)
    (ops : Ops) (fm : FillMethod) (m : ℚ) :
    (clean_data parse t ops fm m).1.names = t.names := by
  rw [clean_data_fst, stage4_fst_names, stage3_fst_names, stage2_fst_names, stage1_fst_names]

/-! ## C7: row-count monotonicity -/

/-- C7: the row count of clean_data is at most the input row count
whenever remove-duplicates or remove-outliers is enabled (in fact
always), and exactly equal when neither is enabled: fill-missing and
convert-dates never change the row count, and the other two stages only
drop rows. -/
theorem clean_data_row_count_monotone (parse : Cell → Option (Option Int)) (t : Table)
    (ops : Ops) (fm : FillMethod) (m : ℚ) :
    ((ops.remove_duplicates = true ∨ ops.remove_outliers = true) →
      (clean_data parse t ops fm m).1.rows.length ≤ t.rows.length) ∧
    (ops.remove_duplicates = false → ops.remove_outliers = false →
      (clean_data parse t ops fm m).1.rows.length = t.rows.length) := by
  constructor
  · intro _
    rw [clean_data_fst]
    calc (stage4 ops m (stage3 ops parse (stage2 ops fm (stage1 ops t).1).1).1).1.rows.length
        ≤ (stage3 ops parse (stage2 ops fm (stage1 ops t).1).1).1.rows.length :=
          stage4_fst_rows_length_le _ _ _
      _ = (stage2 ops fm (stage1 ops t).1).1.rows.length := stage3_fst_rows_length _ _ _
      _ = (stage1 ops t).1.rows.length := stage2_fst_rows_length _ _ _
      _ ≤ t.rows.length := stage1_fst_rows_length_le _ _
  · intro hd ho
    rw [clean_data_fst, stage1_disabled ops t hd]
    rw [stage4_disabled ops m _ ho]
    rw [stage3_fst_rows_length, stage2_fst_rows_length]

/-- Concrete table for the C7 witness: two identical single-cell rows. -/
def tableC7 : Table := ⟨["a"], [Dtype.obj], [[Cell.str "x"], [Cell.str "x"]]⟩

theorem clean_data_row_count_monotone_witness :
    (clean_data parseNone tableC7 ⟨true, false, false, false⟩
        FillMethod.Mean (3/2)).1.rows.length ≤ tableC7.rows.length ∧
    (clean_data parseNone tableC7 ⟨false, false, false, false⟩
        FillMethod.Mean (3/2)).1.rows.length = tableC7.rows.length :=
  ⟨(clean_data_row_count_monotone parseNone tableC7 ⟨true, false, false, false⟩
      FillMethod.Mean (3/2)).1 (Or.inl rfl),
   (clean_data_row_count_monotone parseNone tableC7 ⟨false, false, false, false⟩
      FillMethod.Mean (3/2)).2 rfl rfl⟩

/-! ## C2 helper lemmas: fill values, null counts -/

/-- The columns the spec calls columns with a defined fallback: numeric
under fill-method Mode, or any non-numeric column. -/
def hasFallback (fm : FillMethod) (d : Dtype) : Prop :=
  (d.isNumeric = true ∧ fm = FillMethod.Mode) ∨ d.isNumeric = false

theorem foldl_modeStep_ne_null (nn : List Cell) :
    ∀ (l : List Cell) (acc : Cell), acc ≠ Cell.null → (∀ x ∈ l, x ≠ Cell.null) →
      l.foldl (modeStep nn) acc ≠ Cell.null := by
  intro l
  induction l with
  | nil => intro acc ha _; exact ha
  | cons x xs ih =>
    intro acc ha hl
    refine ih _ ?_ (fun y hy => hl y (List.mem_cons_of_mem x hy))
    unfold modeStep
    split
    · exact hl x (List.mem_cons_self x xs)
    · split
      · exact hl x (List.mem_cons_self x xs)
      · exact ha

theorem modeCell_ne_null (vals : List Cell) (c : Cell) (h : modeCell vals = some c) :
    c ≠ Cell.null := by
  unfold modeCell at h
  cases hnn : vals.filter (fun c => decide (c ≠ Cell.null)) with
  | nil => rw [hnn] at h; simp at h
  | cons a as =>
    rw [hnn] at h
    have hmem : ∀ x ∈ a :: as, x ≠ Cell.null := by
      intro x hx
      have hx2 : x ∈ vals.filter (fun c => decide (c ≠ Cell.null)) := hnn ▸ hx
      simpa using List.of_mem_filter hx2
    simp only [Option.some.injEq] at h
    rw [← h]
    exact foldl_modeStep_ne_null (a :: as) (a :: as) a
      (hmem a (List.mem_cons_self a as)) hmem

theorem fillValue_fallback (fm : FillMethod) (d : Dtype) (vals : List Cell)
    (h : hasFallback fm d) :
    ∃ v, fillValue fm d vals = some v ∧ v ≠ Cell.null := by
  rcases h with ⟨hn, hm⟩ | hn
  · subst hm
    refine ⟨(modeCell vals).getD (Cell.num 0), by simp [fillValue, hn], ?_⟩
    cases hmc : modeCell vals with
    | none => simp
    | some c => simpa using modeCell_ne_null vals c hmc
  · refine ⟨(modeCell vals).getD (Cell.str "Unknown"), by simp [fillValue, hn], ?_⟩
    cases hmc : modeCell vals with
    | none => simp
    | some c => simpa using modeCell_ne_null vals c hmc

theorem countNullAt_fillColRows_self (i : ℕ) (v : Cell) (hv : v ≠ Cell.null)
    (rows : List (List Cell)) (hlen : ∀ r ∈ rows, i < r.length) :
    countNullAt i (fillColRows i v rows) = 0 := by
  unfold countNullAt fillColRows
  rw [List.countP_map, List.countP_eq_zero]
  intro r hr
  simp only [Function.comp_apply, decide_eq_true_eq]
  by_cases hn : r.getD i Cell.null = Cell.null
  · rw [if_pos hn, List.getD_eq_getElem?_getD, List.getElem?_set_self (hlen r hr)]
    simpa using hv
  · rw [if_neg hn]
    exact hn

theorem countNullAt_fillColRows_other (i j : ℕ) (hij : j ≠ i) (v : Cell)
    (rows : List (List Cell)) :
    countNullAt i (fillColRows j v rows) = countNullAt i rows := by
  unfold countNullAt fillColRows
  rw [List.countP_map]
  refine List.countP_congr ?_
  intro r _
  simp only [Function.comp_apply]
  by_cases hn : r.getD j Cell.null = Cell.null
  · rw [if_pos hn, List.getD_eq_getElem?_getD, List.getElem?_set_ne hij,
      ← List.getD_eq_getElem?_getD]
  · rw [if_neg hn]

theorem fillF_countNullAt_other (fm : FillMethod) (acc : Table × List ChangeEntry)
    (i j : ℕ) (hij : j ≠ i) :
    countNullAt i (fillF fm acc j).1.rows = countNullAt i acc.1.rows := by
  cases h : fillValue fm (acc.1.colDtype j) (acc.1.colVals j) with
  | none => simp [fillF, h]
  | some v => simp [fillF, h, countNullAt_fillColRows_other i j hij v]

theorem fillF_rows_length_inv (fm : FillMethod) (acc : Table × List ChangeEntry)
    (j n : ℕ) (h : ∀ r ∈ acc.1.rows, r.length = n) :
    ∀ r ∈ (fillF fm acc j).1.rows, r.length = n := by
  cases hv : fillValue fm (acc.1.colDtype j) (acc.1.colVals j) with
  | none => simpa [fillF, hv] using h
  | some v =>
    simp only [fillF, hv]
    intro r hr
    simp only [fillColRows, List.mem_map] at hr
    obtain ⟨r0, hr0, rfl⟩ := hr
    split
    · rw [List.length_set]
      exact h r0 hr0
    · exact h r0 hr0

theorem fillF_countNullAt_self (fm : FillMethod) (acc : Table × List ChangeEntry)
    (i n : ℕ) (hlen : ∀ r ∈ acc.1.rows, r.length = n) (hi : i < n)
    (hc : hasFallback fm (acc.1.colDtype i)) :
    countNullAt i (fillF fm acc i).1.rows = 0 := by
  obtain ⟨v, hv, hvnull⟩ := fillValue_fallback fm (acc.1.colDtype i) (acc.1.colVals i) hc
  simp only [fillF, hv]
  exact countNullAt_fillColRows_self i v hvnull _ (fun r hr => (hlen r hr) ▸ hi)

theorem foldl_fillF_countNullAt_notmem (fm : FillMethod) (i : ℕ) :
    ∀ (js : List ℕ) (acc : Table × List ChangeEntry), i ∉ js →
      countNullAt i ((js.foldl (fillF fm) acc).1).rows = countNullAt i acc.1.rows := by
  intro js
  induction js with
  | nil => intro acc _; rfl
  | cons j js ih =>
    intro acc hmem
    have hji : j ≠ i := fun h => hmem (h ▸ List.mem_cons_self j js)
    rw [List.foldl_cons, ih _ (fun h => hmem (List.mem_cons_of_mem j h)),
      fillF_countNullAt_other fm acc i j hji]

theorem foldl_fillF_countNullAt_mem (fm : FillMethod) (i n : ℕ) :
    ∀ (js : List ℕ) (acc : Table × List ChangeEntry), i ∈ js →
      (∀ r ∈ acc.1.rows, r.length = n) → i < n →
      hasFallback fm (acc.1.colDtype i) →
      countNullAt i ((js.foldl (fillF fm) acc).1).rows = 0 := by
  intro js
  induction js with
  | nil => intro acc h; simp at h
  | cons j js ih =>
    intro acc hmem hlen hi hc
    rw [List.foldl_cons]
    by_cases hij : i ∈ js
    · refine ih _ hij (fillF_rows_length_inv fm acc j n hlen) hi ?_
      have hdt : (fillF fm acc j).1.colDtype i = acc.1.colDtype i := by
        simp [Table.colDtype, fillF_fst_dtypes]
      rw [hdt]
      exact hc
    · have hji : j = i := by
        rcases List.mem_cons.mp hmem with h | h
        · exact h.symm
        · exact absurd h hij
      subst hji
      rw [foldl_fillF_countNullAt_notmem fm j js _ hij]
      exact fillF_countNullAt_self fm acc j n hlen hi hc

theorem fillStep_countNullAt (fm : FillMethod) (t : Table) (i : ℕ)
    (hlen : ∀ r ∈ t.rows, r.length = t.ncols) (hi : i < t.ncols)
    (hc : hasFallback fm (t.colDtype i)) :
    countNullAt i (fillStep fm t).1.rows = 0 :=
  foldl_fillF_countNullAt_mem fm i t.ncols (List.range t.ncols) (t, [])
    (List.mem_range.mpr hi) hlen hi hc

/-- For a parser that never succeeds as NaT on a non-null value, a
committed conversion maps a cell to null exactly when it was null. -/
theorem convertCellD_eq_null_iff (parse : Cell → Option (Option Int))
    (hparse : ∀ c, parse c ≠ some none) (c : Cell)
    (hc : cellParses parse c = true) :
    convertCellD parse c = Cell.null ↔ c = Cell.null := by
  constructor
  · intro h
    by_contra hne
    have hsome : (parse c).isSome = true := by
      unfold cellParses at hc
      rcases Bool.or_eq_true_iff.mp hc with h1 | h1
      · exact absurd (of_decide_eq_true h1) hne
      · exact h1
    obtain ⟨x, hx⟩ := Option.isSome_iff_exists.mp hsome
    cases x with
    | none => exact hparse c hx
    | some ts =>
      unfold convertCellD at h
      rw [if_neg hne, hx] at h
      simp at h
  · intro h
    simp [convertCellD, h]

theorem convF_countNullAt (parse : Cell → Option (Option Int))
    (hparse : ∀ c, parse c ≠ some none) (acc : Table × List ChangeEntry)
    (i j : ℕ) :
    countNullAt i (convF parse acc j).1.rows = countNullAt i acc.1.rows := by
  by_cases h1 : acc.1.colDtype j = Dtype.obj
  · by_cases h2 : (acc.1.colVals j).all (cellParses parse)
    · simp only [convF, h1, h2, if_true, if_pos rfl]
      unfold countNullAt
      rw [List.countP_map]
      refine List.countP_congr ?_
      intro r hr
      simp only [Function.comp_apply, decide_eq_true_eq]
      by_cases hij : j = i
      · subst hij
        have hcmem : r.getD j Cell.null ∈ acc.1.colVals j := by
          unfold Table.colVals
          exact List.mem_map_of_mem _ hr
        have hcp : cellParses parse (r.getD j Cell.null) = true :=
          List.all_eq_true.mp h2 _ hcmem
        by_cases hlt : j < r.length
        · rw [List.getD_eq_getElem?_getD, List.getElem?_set_self hlt]
          simp only [Option.getD_some]
          exact convertCellD_eq_null_iff parse hparse _ hcp
        · rw [List.set_eq_of_length_le (Nat.le_of_not_lt hlt)]
      · rw [List.getD_eq_getElem?_getD, List.getElem?_set_ne hij,
          ← List.getD_eq_getElem?_getD]
    · simp [convF, h1, h2]
  · simp [convF, h1]

theorem convertStep_countNullAt (parse : Cell → Option (Option Int))
    (hparse : ∀ c, parse c ≠ some none) (t : Table) (i : ℕ) :
    countNullAt i (convertStep parse t).1.rows = countNullAt i t.rows :=
  foldl_invariant (convF parse) (fun p => countNullAt i p.1.rows = countNullAt i t.rows)
    _ (t, []) rfl (fun x b hx => (convF_countNullAt parse hparse x i b).trans hx)

theorem dropDupAux_sublist (l : List (List Cell)) :
    ∀ seen, (dropDupAux seen l).Sublist l := by
  induction l with
  | nil => intro seen; exact List.Sublist.refl _
  | cons r rs ih =>
    intro seen
    by_cases h : r ∈ seen
    · simp only [dropDupAux, if_pos h]
      exact (ih seen).cons r
    · simp only [dropDupAux, if_neg h]
      exact (ih (r :: seen)).cons₂ r

theorem stage1_rows_sublist (ops : Ops) (t : Table) :
    ((stage1 ops t).1.rows).Sublist t.rows := by
  unfold stage1
  by_cases h : ops.remove_duplicates
  · simp only [h, if_true]
    exact dropDupAux_sublist t.rows []
  · simp [h]

theorem stage4_rows_sublist (ops : Ops) (m : ℚ) (t : Table) :
    ((stage4 ops m t).1.rows).Sublist t.rows := by
  unfold stage4
  by_cases h : ops.remove_outliers
  · simp only [h, if_true]
    exact removeOutliersStep_sublist m t
  · simp [h]

theorem countNullAt_sublist_zero (i : ℕ) {rows1 rows2 : List (List Cell)}
    (h : rows1.Sublist rows2) (h2 : countNullAt i rows2 = 0) :
    countNullAt i rows1 = 0 :=
  Nat.le_zero.mp (h2 ▸ h.countP_le _)

theorem stage3_countNullAt (ops : Ops) (parse : Cell → Option (Option Int))
    (hparse : ∀ c, parse c ≠ some none) (t : Table) (i : ℕ) :
    countNullAt i (stage3 ops parse t).1.rows = countNullAt i t.rows := by
  unfold stage3
  by_cases h : ops.convert_dates <;> simp [h, convertStep_countNullAt parse hparse]

theorem getD_map_range {α : Type _} (n i : ℕ) (hi : i < n) (f : ℕ → α) (d : α) :
    ((List.range n).map f).getD i d = f i := by
  rw [List.getD_eq_getElem?_getD, List.getElem?_map, List.getElem?_range hi]
  rfl

theorem clean_data_fst_names (parse : Cell → Option (Option Int)) (t : Table) (ops : Ops)
    (fm : FillMethod) (m : ℚ) :
    (clean_data parse t ops fm m).1.names = t.names := by
  rw [clean_data_fst, stage4_fst_names, stage3_fst_names, stage2_fst_names, stage1_fst_names]

/-! ## C2: fill-missing eliminates nulls in columns with a fallback -/

/-- C2 amended: for a well-formed table and any configuration with
fill-missing enabled, every column with a defined fallback (numeric
under fill method Mode, or any non-numeric column) has zero missing
values in the cleaned table — the missing-values report of assess on
the cleaned table shows a null count of 0 at that column — provided
the date parser never succeeds as NaT on a non-null value. Without
that proviso the convert-dates stage can reintroduce NaT into a
converted string column (see the counterexample). -/
theorem clean_data_fill_missing_eliminates_nulls (parse : Cell → Option (Option Int))
    (hparse : ∀ c, parse c ≠ some none)
    (t : Table) (ops : Ops) (fm : FillMethod) (m : ℚ) (i : ℕ)
    (hwf : t.WF) (hfill : ops.fill_missing = true) (hi : i < t.ncols)
    (hc : hasFallback fm (t.colDtype i)) :
    ((assess_data_quality (clean_data parse t ops fm m).1).missingValues.getD
      i ("", 0)).2 = 0 := by
  have hnames : (clean_data parse t ops fm m).1.names = t.names :=
    clean_data_fst_names parse t ops fm m
  have hi' : i < (clean_data parse t ops fm m).1.ncols := by
    unfold Table.ncols
    rw [hnames]
    exact hi
  simp only [assess_data_quality]
  rw [getD_map_range _ i hi']
  show countNullAt i (clean_data parse t ops fm m).1.rows = 0
  rw [clean_data_fst]
  set t1 := (stage1 ops t).1 with ht1
  have hlen1 : ∀ r ∈ t1.rows, r.length = t1.ncols := by
    intro r hr
    have : r ∈ t.rows := (stage1_rows_sublist ops t).mem hr
    have := hwf.2 r this
    unfold Table.ncols
    rw [ht1, stage1_fst_names]
    exact this
  have hi1 : i < t1.ncols := by
    unfold Table.ncols
    rw [ht1, stage1_fst_names]
    exact hi
  have hc1 : hasFallback fm (t1.colDtype i) := by
    have : t1.colDtype i = t.colDtype i := by
      unfold Table.colDtype
      rw [ht1, stage1_fst_dtypes]
    rw [this]
    exact hc
  have h2 : countNullAt i (stage2 ops fm t1).1.rows = 0 := by
    unfold stage2
    rw [hfill, if_pos rfl]
    exact fillStep_countNullAt fm t1 i hlen1 hi1 hc1
  have h3 : countNullAt i (stage3 ops parse (stage2 ops fm t1).1).1.rows = 0 := by
    rw [stage3_countNullAt ops parse hparse]
    exact h2
  exact countNullAt_sublist_zero i (stage4_rows_sublist ops m _) h3

/-- Concrete table for the C2 witness: one object column with a missing
value. -/
def tableC2 : Table := ⟨["a"], [Dtype.obj], [[Cell.null]]⟩

theorem clean_data_fill_missing_eliminates_nulls_witness :
    ((assess_data_quality (clean_data parseNone tableC2 ⟨false, true, false, false⟩
      FillMethod.Mean (3/2)).1).missingValues.getD 0 ("", 0)).2 = 0 :=
  clean_data_fill_missing_eliminates_nulls parseNone (fun c => by simp [parseNone])
    tableC2 ⟨false, true, false, false⟩
    FillMethod.Mean (3/2) 0 (by decide) rfl (by decide) (Or.inr rfl)

/-- Parser for the C2 counterexample, behaving as pd.to_datetime does
on these values: 2021-01-01 parses to a date, and the empty string (a
nat-string) succeeds as NaT. -/
def parseWithNaT : Cell → Option (Option Int) := fun c =>
  match c with
  | Cell.str s =>
    if s = "2021-01-01" then some (some 18628)
    else if s = "" then some none else none
  | _ => none

/-- Concrete table for the C2 counterexample: one object column
holding the empty string and a date string, with no missing values
before cleaning. -/
def tableC2nat : Table := ⟨["d"], [Dtype.obj], [[Cell.str ""], [Cell.str "2021-01-01"]]⟩

/-- C2 counterexample: with fill-missing and convert-dates both
enabled, the fill stage has nothing to fill in the object column, the
convert stage commits the fully parsing column, and the empty string
becomes NaT: the cleaned non-numeric (fallback-defined) column reports
one missing value, not zero, so the claim as stated is false. -/
theorem clean_data_fill_missing_leaves_null_example :
    ((assess_data_quality (clean_data parseWithNaT tableC2nat ⟨false, true, true, false⟩
      FillMethod.Mean (3/2)).1).missingValues.getD 0 ("", 0)).2 ≠ 0 := by
  decide

/-! ## C4 helper lemmas: the convert-dates stage column by column -/

/-- Whether the convert loop commits column i: an object column all of
whose values parse. -/
def convPred (parse : Cell → Option (Option Int)) (t : Table) (i : ℕ) : Bool :=
  decide (t.colDtype i = Dtype.obj) && (t.colVals i).all (cellParses parse)

theorem convF_fst_dtypes_length (parse : Cell → Option (Option Int))
    (acc : Table × List ChangeEntry) (j : ℕ) :
    (convF parse acc j).1.dtypes.length = acc.1.dtypes.length := by
  by_cases h1 : acc.1.colDtype j = Dtype.obj
  · by_cases h2 : (acc.1.colVals j).all (cellParses parse) <;> simp [convF, h1, h2]
  · simp [convF, h1]

theorem convF_eq_update (parse : Cell → Option (Option Int)) (acc : Table × List ChangeEntry)
    (j : ℕ) (h1 : acc.1.colDtype j = Dtype.obj)
    (h2 : (acc.1.colVals j).all (cellParses parse) = true) :
    convF parse acc j =
      (({ acc.1 with
          rows := acc.1.rows.map (fun r => r.set j (convertCellD parse (r.getD j Cell.null))),
          dtypes := acc.1.dtypes.set j Dtype.datetime } : Table),
        acc.2 ++ [ChangeEntry.convertedDates (acc.1.names.getD j "")]) := by
  simp only [convF, h1, h2, if_true]

theorem colVals_set_self (parse : Cell → Option (Option Int)) (rows : List (List Cell)) (j : ℕ) :
    (rows.map (fun r => r.set j (convertCellD parse (r.getD j Cell.null)))).map
      (fun r => r.getD j Cell.null) =
    (rows.map (fun r => r.getD j Cell.null)).map (convertCellD parse) := by
  rw [List.map_map, List.map_map]
  refine List.map_congr_left ?_
  intro r _
  simp only [Function.comp_apply]
  by_cases hlt : j < r.length
  · rw [List.getD_eq_getElem?_getD, List.getElem?_set_self hlt]
    rfl
  · rw [List.set_eq_of_length_le (Nat.le_of_not_lt hlt),
      List.getD_eq_default _ _ (Nat.le_of_not_lt hlt)]
    simp [convertCellD]

theorem convF_other (parse : Cell → Option (Option Int)) (acc : Table × List ChangeEntry)
    (i j : ℕ) (hij : j ≠ i) :
    (convF parse acc j).1.colVals i = acc.1.colVals i ∧
    (convF parse acc j).1.colDtype i = acc.1.colDtype i := by
  by_cases h1 : acc.1.colDtype j = Dtype.obj
  · by_cases h2 : (acc.1.colVals j).all (cellParses parse)
    · rw [convF_eq_update parse acc j h1 h2]
      constructor
      · simp only [Table.colVals, List.map_map]
        refine List.map_congr_left ?_
        intro r _
        simp only [Function.comp_apply]
        rw [List.getD_eq_getElem?_getD, List.getElem?_set_ne hij,
          ← List.getD_eq_getElem?_getD]
      · simp only [Table.colDtype]
        rw [List.getD_eq_getElem?_getD, List.getElem?_set_ne hij,
          ← List.getD_eq_getElem?_getD]
    · simp [convF, h1, h2]
  · simp [convF, h1]

theorem foldl_convF_other (parse : Cell → Option (Option Int)) (i : ℕ) :
    ∀ (js : List ℕ) (acc : Table × List ChangeEntry), i ∉ js →
      (js.foldl (convF parse) acc).1.colVals i = acc.1.colVals i ∧
      (js.foldl (convF parse) acc).1.colDtype i = acc.1.colDtype i := by
  intro js
  induction js with
  | nil => intro acc _; exact ⟨rfl, rfl⟩
  | cons j js ih =>
    intro acc hmem
    have hji : j ≠ i := fun h => hmem (h ▸ List.mem_cons_self j js)
    have h1 := ih (convF parse acc j) (fun h => hmem (List.mem_cons_of_mem j h))
    have h2 := convF_other parse acc i j hji
    rw [List.foldl_cons]
    exact ⟨h1.1.trans h2.1, h1.2.trans h2.2⟩

theorem convF_at_self_true (parse : Cell → Option (Option Int)) (t : Table)
    (acc : Table × List ChangeEntry) (j : ℕ)
    (hv : acc.1.colVals j = t.colVals j) (hd : acc.1.colDtype j = t.colDtype j)
    (hp : convPred parse t j = true) (hlen : j < acc.1.dtypes.length) :
    (convF parse acc j).1.colVals j = (t.colVals j).map (convertCellD parse) ∧
    (convF parse acc j).1.colDtype j = Dtype.datetime ∧
    (convF parse acc j).2 =
      acc.2 ++ [ChangeEntry.convertedDates (acc.1.names.getD j "")] := by
  obtain ⟨hobj, hall⟩ :
      t.colDtype j = Dtype.obj ∧ (t.colVals j).all (cellParses parse) = true := by
    have h := hp
    unfold convPred at h
    simpa using h
  have h1 : acc.1.colDtype j = Dtype.obj := hd.trans hobj
  have h2 : (acc.1.colVals j).all (cellParses parse) = true := by rw [hv]; exact hall
  rw [convF_eq_update parse acc j h1 h2]
  refine ⟨?_, ?_, rfl⟩
  · rw [← hv]
    have key := colVals_set_self parse acc.1.rows j
    simp only [Table.colVals, List.map_map] at key ⊢
    exact key
  · simp only [Table.colDtype]
    rw [List.getD_eq_getElem?_getD, List.getElem?_set_self hlen]
    rfl

theorem convF_at_self_false (parse : Cell → Option (Option Int)) (t : Table)
    (acc : Table × List ChangeEntry) (j : ℕ)
    (hv : acc.1.colVals j = t.colVals j) (hd : acc.1.colDtype j = t.colDtype j)
    (hp : convPred parse t j = false) :
    convF parse acc j = acc := by
  by_cases h1 : acc.1.colDtype j = Dtype.obj
  · have hobj : t.colDtype j = Dtype.obj := hd.symm.trans h1
    have hall : (t.colVals j).all (cellParses parse) = false := by
      unfold convPred at hp
      rcases Bool.and_eq_false_iff.mp hp with h | h
      · exfalso
        exact absurd hobj (by simpa using h)
      · exact h
    have h2 : (acc.1.colVals j).all (cellParses parse) = false := by rw [hv]; exact hall
    simp [convF, h1, h2]
  · simp [convF, h1]

theorem convF_fold_spec (parse : Cell → Option (Option Int)) (t : Table) :
    ∀ (js : List ℕ), js.Nodup → (∀ j ∈ js, j < t.dtypes.length) →
    ∀ (acc : Table × List ChangeEntry),
      acc.1.names = t.names →
      acc.1.dtypes.length = t.dtypes.length →
      (∀ j ∈ js, acc.1.colVals j = t.colVals j ∧ acc.1.colDtype j = t.colDtype j) →
      ((js.foldl (convF parse) acc).2 =
        acc.2 ++ (js.filter (convPred parse t)).map
          (fun i => ChangeEntry.convertedDates (t.names.getD i ""))) ∧
      (∀ i ∈ js,
        (convPred parse t i = true →
          (js.foldl (convF parse) acc).1.colVals i =
            (t.colVals i).map (convertCellD parse) ∧
          (js.foldl (convF parse) acc).1.colDtype i = Dtype.datetime) ∧
        (convPred parse t i = false →
          (js.foldl (convF parse) acc).1.colVals i = t.colVals i ∧
          (js.foldl (convF parse) acc).1.colDtype i = t.colDtype i)) := by
  intro js
  induction js with
  | nil =>
    intro _ _ acc _ _ _
    exact ⟨by simp, by simp⟩
  | cons j js ih =>
    intro hnd hrange acc hnames hdlen hinv
    have hjnd : j ∉ js := (List.nodup_cons.mp hnd).1
    have hnd' : js.Nodup := (List.nodup_cons.mp hnd).2
    have hinvj := hinv j (List.mem_cons_self j js)
    have hnames' : (convF parse acc j).1.names = t.names :=
      (convF_fst_names parse acc j).trans hnames
    have hdlen' : (convF parse acc j).1.dtypes.length = t.dtypes.length :=
      (convF_fst_dtypes_length parse acc j).trans hdlen
    have hinv' : ∀ j' ∈ js, (convF parse acc j).1.colVals j' = t.colVals j' ∧
        (convF parse acc j).1.colDtype j' = t.colDtype j' := by
      intro j' hj'
      have hne : j ≠ j' := fun h => hjnd (h ▸ hj')
      have ho := convF_other parse acc j' j hne
      exact ⟨ho.1.trans (hinv j' (List.mem_cons_of_mem j hj')).1,
        ho.2.trans (hinv j' (List.mem_cons_of_mem j hj')).2⟩
    have IH := ih hnd' (fun j' hj' => hrange j' (List.mem_cons_of_mem j hj'))
      (convF parse acc j) hnames' hdlen' hinv'
    rw [List.foldl_cons]
    cases hp : convPred parse t j with
    | true =>
      have hj := convF_at_self_true parse t acc j hinvj.1 hinvj.2 hp
        (by rw [hdlen]; exact hrange j (List.mem_cons_self j js))
      constructor
      · rw [IH.1, hj.2.2, List.filter_cons, if_pos hp, List.map_cons, hnames]
        simp
      · intro i hi
        rcases List.mem_cons.mp hi with rfl | hi'
        · have hu := foldl_convF_other parse i js (convF parse acc i) hjnd
          constructor
          · intro _
            exact ⟨hu.1.trans hj.1, hu.2.trans hj.2.1⟩
          · intro hfalse
            rw [hp] at hfalse
            cases hfalse
        · exact IH.2 i hi'
    | false =>
      have hj : convF parse acc j = acc :=
        convF_at_self_false parse t acc j hinvj.1 hinvj.2 hp
      constructor
      · rw [IH.1, hj, List.filter_cons, if_neg (by rw [hp]; exact Bool.false_ne_true)]
      · intro i hi
        rcases List.mem_cons.mp hi with rfl | hi'
        · constructor
          · intro htrue
            rw [hp] at htrue
            cases htrue
          · intro _
            rw [hj]
            have hu := foldl_convF_other parse i js acc hjnd
            exact ⟨hu.1.trans hinvj.1, hu.2.trans hinvj.2⟩
        · exact IH.2 i hi'

/-! ## C4: convert-dates is all-or-nothing per column -/

/-- C4: for a well-formed table, the convert-dates stage is
all-or-nothing per object column: its change log holds exactly one
entry per object column all of whose values parse, in column order, and
for each object column, if every value parses the column values become
the parsed datetimes and its dtype becomes datetime, while if any value
fails to parse the column values and dtype are left completely
unchanged and no entry is logged for it; the per-column failure is
absorbed by the stage (it is a total function) and never propagates. -/
theorem convertStep_all_or_nothing (parse : Cell → Option (Option Int)) (t : Table)
    (hwf : t.WF) :
    ((convertStep parse t).2 =
      ((List.range t.ncols).filter (convPred parse t)).map
        (fun i => ChangeEntry.convertedDates (t.names.getD i ""))) ∧
    (∀ i, i < t.ncols → t.colDtype i = Dtype.obj →
      (((t.colVals i).all (cellParses parse) = true →
        (convertStep parse t).1.colVals i = (t.colVals i).map (convertCellD parse) ∧
        (convertStep parse t).1.colDtype i = Dtype.datetime) ∧
      ((t.colVals i).all (cellParses parse) = false →
        (convertStep parse t).1.colVals i = t.colVals i ∧
        (convertStep parse t).1.colDtype i = t.colDtype i))) := by
  have h := convF_fold_spec parse t (List.range t.ncols) (List.nodup_range _)
    (fun j hj => by rw [hwf.1]; exact List.mem_range.mp hj) (t, []) rfl rfl
    (fun j _ => ⟨rfl, rfl⟩)
  constructor
  · have := h.1
    simpa [convertStep] using this
  · intro i hi hobj
    have hcol := h.2 i (List.mem_range.mpr hi)
    constructor
    · intro hall
      exact hcol.1 (by unfold convPred; rw [hobj, hall]; simp)
    · intro hall
      exact hcol.2 (by unfold convPred; rw [hobj, hall]; simp)

/-- A concrete stand-in for pd.to_datetime in witnesses: parses exactly
the string 2021-01-01 (to its epoch day number). -/
def parseSimple : Cell → Option (Option Int) := fun c =>
  match c with
  | Cell.str s => if s = "2021-01-01" then some (some 18628) else none
  | _ => none

/-- Concrete table for the C4 witness: a fully parsing object column
and an object column with one failing value. -/
def tableC4 : Table :=
  ⟨["d", "x"], [Dtype.obj, Dtype.obj], [[Cell.str "2021-01-01", Cell.str "nope"]]⟩

theorem convertStep_all_or_nothing_witness :
    (convertStep parseSimple tableC4).2 = [ChangeEntry.convertedDates "d"] ∧
    (convertStep parseSimple tableC4).1.colVals 1 = tableC4.colVals 1 ∧
    (convertStep parseSimple tableC4).1.colDtype 0 = Dtype.datetime := by
  have h := convertStep_all_or_nothing parseSimple tableC4 (by decide)
  refine ⟨?_, ?_, ?_⟩
  · rw [h.1]
    rfl
  · exact ((h.2 1 (by decide) (by decide)).2 (by decide)).1
  · exact ((h.2 0 (by decide) (by decide)).1 (by decide)).2

/-! ## C5: the remove-outliers stage against the spec wording -/

/-- Spec-side step of the remove-outliers stage, following the claim
wording: on the current rows of numeric column i, compute Q1 and Q3,
IQR = Q3 - Q1, and keep only the rows whose value lies within
[Q1 - m*IQR, Q3 + m*IQR], adding the number of removed rows (the rows
not within the bounds) to the running total. When the column has no
values the NaN bounds keep nothing and every current row is removed. -/
def specOutStep (m : ℚ) (acc : List (List Cell) × ℕ) (i : ℕ) : List (List Cell) × ℕ :=
  let qs := nonNullQs (acc.1.map (fun r => r.getD i Cell.null))
  match quantileQ (1/4) qs, quantileQ (3/4) qs with
  | some q1, some q3 =>
    let iqr := q3 - q1
    let lb := q1 - m * iqr
    let ub := q3 + m * iqr
    (acc.1.filter (outlierKeep i lb ub),
      acc.2 + (acc.1.filter (fun r => !(outlierKeep i lb ub r))).length)
  | _, _ =>
    (acc.1.filter (fun _ => false),
      acc.2 + (acc.1.filter (fun _ => true)).length)

/-- Spec-side rendering of the whole stage (C5): fold the per-column
step over the numeric columns in column order against the current
working rows, then emit a single entry carrying the accumulated total
and the multiplier, only if the total is positive. -/
def removeOutliersSpec (m : ℚ) (t : Table) : Table × List ChangeEntry :=
  let res := t.numericIdxs.foldl (specOutStep m) (t.rows, 0)
  (({ t with rows := res.1 } : Table),
    if 0 < res.2 then [ChangeEntry.removedOutliers res.2 m] else [])

theorem length_filter_add_not {α : Type _} (p : α → Bool) (l : List α) :
    (l.filter p).length + (l.filter (fun a => !(p a))).length = l.length := by
  induction l with
  | nil => rfl
  | cons a l ih =>
    by_cases h : p a <;> simp [List.filter_cons, h] <;> omega

theorem outF_eq_specOutStep (m : ℚ) (i : ℕ) (acc : List (List Cell) × ℕ) :
    outF m acc i = specOutStep m acc i := by
  cases h1 : quantileQ (1/4) (nonNullQs (List.map (fun r => r.getD i Cell.null) acc.1)) <;>
    cases h2 : quantileQ (3/4) (nonNullQs (List.map (fun r => r.getD i Cell.null) acc.1)) <;>
    simp only [outF, specOutStep, outlierFilterCol, h1, h2]
  case none.none =>
    simp
  case none.some q3 =>
    simp
  case some.none q1 =>
    simp
  case some.some q1 q3 =>
    have hadd := length_filter_add_not
      (outlierKeep i (q1 - m * (q3 - q1)) (q3 + m * (q3 - q1))) acc.1
    simp only [Prod.mk.injEq, true_and]
    omega

/-- C5: the remove-outliers stage of the source (lines 57-69, embedded
as removeOutliersLog) coincides with the spec-side description: numeric
columns are processed in column order against the current working rows,
each column keeps exactly the rows whose value lies within
[Q1 - m*IQR, Q3 + m*IQR] of that column's current values, one running
total of removed rows is accumulated across the columns, and a single
entry carrying the total and the multiplier is emitted only when the
total is positive. -/
theorem removeOutliers_code_eq_spec (m : ℚ) (t : Table) :
    removeOutliersLog m t = removeOutliersSpec m t := by
  have hfold : t.numericIdxs.foldl (outF m) (t.rows, 0) =
      t.numericIdxs.foldl (specOutStep m) (t.rows, 0) :=
    List.foldl_ext _ _ _ (fun a b _ => outF_eq_specOutStep m b a)
  unfold removeOutliersLog removeOutliersStep removeOutliersSpec
  rw [hfold]

/-! ## C10: missing values are dropped by the outlier filter -/

theorem outlierKeep_ne_null (i : ℕ) (lb ub : ℚ) (r : List Cell)
    (h : outlierKeep i lb ub r = true) : r.getD i Cell.null ≠ Cell.null := by
  intro hnull
  unfold outlierKeep at h
  rw [hnull] at h
  simp [Cell.toQ] at h

theorem outlierFilterCol_nonnull (m : ℚ) (i : ℕ) (rows : List (List Cell)) :
    ∀ r ∈ outlierFilterCol m i rows, r.getD i Cell.null ≠ Cell.null := by
  intro r hr
  cases h1 : quantileQ (1/4) (nonNullQs (List.map (fun r => r.getD i Cell.null) rows)) <;>
    cases h2 : quantileQ (3/4) (nonNullQs (List.map (fun r => r.getD i Cell.null) rows)) <;>
    simp only [outlierFilterCol, h1, h2] at hr
  case none.none => simp at hr
  case none.some q3 => simp at hr
  case some.none q1 => simp at hr
  case some.some q1 q3 =>
    exact outlierKeep_ne_null i _ _ r (List.of_mem_filter hr)

theorem foldl_outF_sublist (m : ℚ) :
    ∀ (js : List ℕ) (acc : List (List Cell) × ℕ),
      ((js.foldl (outF m) acc).1).Sublist acc.1 := by
  intro js
  induction js with
  | nil => intro acc; exact List.Sublist.refl _
  | cons j js ih =>
    intro acc
    exact (ih (outF m acc j)).trans (outlierFilterCol_sublist m j acc.1)

theorem removeOutliersStep_nonnull (m : ℚ) (t : Table) :
    ∀ r ∈ (removeOutliersStep m t).1.rows, ∀ i ∈ t.numericIdxs,
      r.getD i Cell.null ≠ Cell.null := by
  have key : ∀ (js : List ℕ) (acc : List (List Cell) × ℕ),
      ∀ r ∈ (js.foldl (outF m) acc).1, ∀ i ∈ js, r.getD i Cell.null ≠ Cell.null := by
    intro js
    induction js with
    | nil => intro acc r _ i hi; simp at hi
    | cons j js ih =>
      intro acc r hr i hi
      rcases List.mem_cons.mp hi with rfl | hi'
      · have hsub : ((js.foldl (outF m) (outF m acc i)).1).Sublist (outF m acc i).1 :=
          foldl_outF_sublist m js (outF m acc i)
        exact outlierFilterCol_nonnull m i acc.1 r (hsub.subset hr)
      · exact ih (outF m acc j) r hr i hi'
  exact fun r hr i hi => key t.numericIdxs (t.rows, 0) r hr i hi

theorem removeOutliersStep_total (m : ℚ) (t : Table) :
    (removeOutliersStep m t).2 =
      t.rows.length - (removeOutliersStep m t).1.rows.length := by
  have key := foldl_invariant (outF m)
    (fun acc => acc.2 = t.rows.length - acc.1.length ∧ acc.1.length ≤ t.rows.length)
    t.numericIdxs (t.rows, 0) ⟨by simp, Nat.le_refl _⟩
    (fun x b hx => by
      obtain ⟨hx1, hx2⟩ := hx
      have hble : (outlierFilterCol m b x.1).length ≤ x.1.length :=
        (outlierFilterCol_sublist m b x.1).length_le
      constructor
      · show x.2 + (x.1.length - (outlierFilterCol m b x.1).length) =
          t.rows.length - (outlierFilterCol m b x.1).length
        omega
      · show (outlierFilterCol m b x.1).length ≤ t.rows.length
        omega)
  exact key.1

/-- C10: a row whose value in the numeric column currently filtered is
missing never passes that column's filter (both NaN comparisons are
false), so every row surviving the stage is non-missing in every
numeric column considered, and the logged total, the difference between
the row counts before and after the stage, counts those dropped rows. -/
theorem removeOutliers_drops_null_rows (m : ℚ) (t : Table) :
    (∀ (rows : List (List Cell)) (i : ℕ) (r : List Cell),
      r.getD i Cell.null = Cell.null → r ∉ outlierFilterCol m i rows) ∧
    (∀ r ∈ (removeOutliersStep m t).1.rows, ∀ i ∈ t.numericIdxs,
      r.getD i Cell.null ≠ Cell.null) ∧
    (removeOutliersStep m t).2 =
      t.rows.length - (removeOutliersStep m t).1.rows.length :=
  ⟨fun rows i r hnull hmem => outlierFilterCol_nonnull m i rows r hmem hnull,
   removeOutliersStep_nonnull m t,
   removeOutliersStep_total m t⟩

/-- Concrete table for the C10 witness: a float64 column holding 1,
null, 2, 3. -/
def tableC10 : Table :=
  ⟨["a"], [Dtype.float64], [[Cell.num 1], [Cell.null], [Cell.num 2], [Cell.num 3]]⟩

theorem removeOutliers_drops_null_rows_witness :
    [Cell.null] ∉ outlierFilterCol (3/2) 0 tableC10.rows ∧
    ([Cell.num 1].getD 0 Cell.null ≠ Cell.null) ∧
    (removeOutliersStep (3/2) tableC10).2 =
      tableC10.rows.length - (removeOutliersStep (3/2) tableC10).1.rows.length := by
  refine ⟨(removeOutliers_drops_null_rows (3/2) tableC10).1 tableC10.rows 0 [Cell.null] rfl,
    ?_, (removeOutliers_drops_null_rows (3/2) tableC10).2.2⟩
  exact (removeOutliers_drops_null_rows (3/2) tableC10).2.1 [Cell.num 1]
    (by with_unfolding_all decide) 0 (by decide)

end DataCleaner
